import Mathlib

/-!
Verification development for the clip-catcher repository.

The embedding below translates `src/lib/ringbuffer.py` (class `RingBuffer`)
and the parts of `src/lib/clip.py` (class `Clipper`) that the claims are
about.  Python integers are modelled as `Int` (Python `%` on a positive
modulus agrees with `Int.emod`), Python lists as `List`, raised exceptions
as `Except String` results, and `None` as `Option.none`.  Numeric values
that Python computes in floating point (`_ms_per_frame`, the argument of
`round`) are modelled as rationals.
-/

/-- Shallow embedding of the Python class `RingBuffer` from
`src/lib/ringbuffer.py`: a fixed-size circular buffer that is always full.
`buffer` models `self.buffer` and `endIndex` models `self.endIndex`
(an `Int`, since `__init__` sets it to `len(self.buffer) - 1`, which is
`-1` for an empty buffer). -/
structure RingBuffer (α : Type) where
  buffer : List α
  endIndex : Int
  deriving Repr, DecidableEq

/-- Embedding of `RingBuffer.__init__(self, size, default)`:
`self.buffer = [default] * size; self.endIndex = len(self.buffer) - 1`.
`size` is an `Int` because Python accepts any integer; `[default] * size`
yields the empty list for `size <= 0`, which `Int.toNat` reproduces.
Note that `__init__` performs no validation and cannot raise. -/
def RingBuffer.new (size : Int) (default : α) : RingBuffer α :=
  let buf := List.replicate size.toNat default
  { buffer := buf, endIndex := (buf.length : Int) - 1 }

/-- Embedding of `RingBuffer.add(self, item)`:
`self.endIndex = (self.endIndex + 1) % len(self.buffer);
self.buffer[self.endIndex] = item`.
When `len(self.buffer) = 0` the Python `%` raises `ZeroDivisionError`,
modelled as the `error` branch. -/
def RingBuffer.add (rb : RingBuffer α) (item : α) : Except String (RingBuffer α) :=
  if rb.buffer.length = 0 then
    .error "integer division or modulo by zero"
  else
    let newEnd : Int := (rb.endIndex + 1) % (rb.buffer.length : Int)
    .ok { buffer := rb.buffer.set newEnd.toNat item, endIndex := newEnd }

/-- Embedding of `RingBuffer.get(self, index)`: raises
`IndexError("Out of range")` when `index < 0 or index >= len(self.buffer)`,
otherwise returns `self.buffer[(start_index + index) % len(self.buffer)]`
with `start_index = (self.endIndex + 1) % len(self.buffer)`.  The final
`match` models the Python list subscript itself (its `none` branch is
unreachable because the computed index is always in range). -/
def RingBuffer.get (rb : RingBuffer α) (index : Int) : Except String α :=
  if index < 0 ∨ ((rb.buffer.length : Int)) ≤ index then
    .error "Out of range"
  else
    let n : Int := (rb.buffer.length : Int)
    let startIndex : Int := (rb.endIndex + 1) % n
    let actualIndex : Int := (startIndex + index) % n
    match rb.buffer[actualIndex.toNat]? with
    | some x => .ok x
    | none => .error "Out of range"

/-- Embedding of `RingBuffer.__len__(self)`: `len(self.buffer)`. -/
def RingBuffer.length (rb : RingBuffer α) : Nat :=
  rb.buffer.length

/-- Folding `add` over a list of items: a sequence of `add` calls, stopping
at the first raised exception (Python would propagate it). -/
def RingBuffer.addAll (rb : RingBuffer α) : List α → Except String (RingBuffer α)
  | [] => .ok rb
  | x :: xs => (rb.add x).bind (fun rb1 => rb1.addAll xs)

example : (RingBuffer.new 3 (0 : Nat)).buffer = [0, 0, 0] := by decide
example : (RingBuffer.new 3 (0 : Nat)).endIndex = 2 := by decide
example : (RingBuffer.new 0 (0 : Nat)).buffer = [] := by decide
example : (RingBuffer.new 0 (0 : Nat)).endIndex = -1 := by decide
example :
    (RingBuffer.new 4 (0 : Nat)).addAll [1, 2, 3] =
      .ok { buffer := [1, 2, 3, 0], endIndex := 2 } := rfl
example :
    ((RingBuffer.new 4 (0 : Nat)).addAll [1, 2, 3]).bind (fun rb => rb.get 0) =
      .ok 0 := rfl
example :
    ((RingBuffer.new 4 (0 : Nat)).addAll [1, 2, 3, 4]).bind (fun rb => rb.get 0) =
      .ok 1 := rfl
example :
    ((RingBuffer.new 4 (0 : Nat)).addAll [1, 2, 3, 4]).bind (fun rb => rb.get 3) =
      .ok 4 := rfl
example : (RingBuffer.new 2 (0 : Nat)).get 2 = .error "Out of range" := rfl
example : (RingBuffer.new 2 (0 : Nat)).get (-1) = .error "Out of range" := rfl

/-! Helper lemmas about the circular index arithmetic of `add` and `get`. -/

theorem emod_add_right_emod (a b n : Int) : (a % n + b) % n = (a + b) % n := by
  rw [Int.add_emod, Int.emod_emod_of_dvd _ dvd_rfl, ← Int.add_emod]

theorem RingBuffer.add_ok (rb : RingBuffer α) (x : α)
    (hn : rb.buffer.length ≠ 0) :
    rb.add x =
      .ok { buffer := rb.buffer.set (((rb.endIndex + 1) % (rb.buffer.length : Int)).toNat) x,
            endIndex := (rb.endIndex + 1) % (rb.buffer.length : Int) } := by
  simp [RingBuffer.add, hn]

theorem RingBuffer.get_of_inbounds (rb : RingBuffer α) (i : Int)
    (h0 : 0 ≤ i) (h1 : i < (rb.buffer.length : Int)) :
    rb.get i =
      match rb.buffer[(((rb.endIndex + 1) % (rb.buffer.length : Int) + i) %
          (rb.buffer.length : Int)).toNat]? with
      | some x => Except.ok x
      | none => Except.error "Out of range" := by
  have : ¬ (i < 0 ∨ (rb.buffer.length : Int) ≤ i) := by omega
  simp only [RingBuffer.get, this, if_false]

/-- After a successful `add`, reading index `i` (with `i + 1 < capacity`)
returns what index `i + 1` held before: the whole content shifts left by one
slot. -/
theorem RingBuffer.add_get_shift (rb : RingBuffer α) (x : α) (rb1 : RingBuffer α)
    (hadd : rb.add x = .ok rb1) (i : Int)
    (h0 : 0 ≤ i) (h1 : i + 1 < (rb.buffer.length : Int)) :
    rb1.get i = rb.get (i + 1) := by
  have hn : rb.buffer.length ≠ 0 := by
    intro h
    rw [h] at h1
    omega
  have hnpos : (0 : Int) < (rb.buffer.length : Int) := by
    omega
  rw [RingBuffer.add_ok rb x hn] at hadd
  have hrb1 : rb1 = { buffer := rb.buffer.set (((rb.endIndex + 1) % (rb.buffer.length : Int)).toNat) x,
                      endIndex := (rb.endIndex + 1) % (rb.buffer.length : Int) } := by
    cases hadd
    rfl
  subst hrb1
  set n : Int := (rb.buffer.length : Int) with hdefn
  set e : Int := rb.endIndex with hdefe
  set e1 : Int := (e + 1) % n with hdefe1
  have hlen1 : ((rb.buffer.set e1.toNat x).length : Int) = n := by
    rw [List.length_set]
  rw [RingBuffer.get_of_inbounds _ i h0 (by rw [hlen1]; omega),
      RingBuffer.get_of_inbounds _ (i + 1) (by omega) h1]
  simp only [hlen1, ← hdefe1]
  have key : ((e1 + 1) % n + i) % n = (e1 + (i + 1)) % n := by
    rw [emod_add_right_emod]
    congr 1
    ring
  rw [key]
  have hne : ((e1 + (i + 1)) % n).toNat ≠ e1.toNat := by
    intro heq
    have he1nn : 0 ≤ e1 := by
      rw [hdefe1]
      exact Int.emod_nonneg _ (by omega)
    have hxnn : 0 ≤ (e1 + (i + 1)) % n := Int.emod_nonneg _ (by omega)
    have heqInt : (e1 + (i + 1)) % n = e1 := by
      have := congrArg (fun m : Nat => (m : Int)) heq
      simpa [Int.toNat_of_nonneg hxnn, Int.toNat_of_nonneg he1nn] using this
    have he1mod : e1 % n = e1 := by
      apply Int.emod_eq_of_lt he1nn
      exact Int.emod_lt_of_pos _ hnpos
    have hsub : ((e1 + (i + 1)) - e1) % n = 0 := by
      rw [← Int.emod_eq_emod_iff_emod_sub_eq_zero]
      rw [heqInt, he1mod]
    have hdvd : n ∣ (i + 1) := by
      apply Int.dvd_of_emod_eq_zero
      simpa using hsub
    have := Int.le_of_dvd (by omega) hdvd
    omega
  rw [List.getElem?_set_ne (fun h => hne h.symm)]

/-- After a successful `add`, reading the last index `capacity - 1` returns
the item just added. -/
theorem RingBuffer.add_get_last (rb : RingBuffer α) (x : α) (rb1 : RingBuffer α)
    (hadd : rb.add x = .ok rb1) (hn : 0 < rb.buffer.length) :
    rb1.get ((rb.buffer.length : Int) - 1) = .ok x := by
  have hn' : rb.buffer.length ≠ 0 := by omega
  have hnpos : (0 : Int) < (rb.buffer.length : Int) := by omega
  rw [RingBuffer.add_ok rb x hn'] at hadd
  have hrb1 : rb1 = { buffer := rb.buffer.set (((rb.endIndex + 1) % (rb.buffer.length : Int)).toNat) x,
                      endIndex := (rb.endIndex + 1) % (rb.buffer.length : Int) } := by
    cases hadd
    rfl
  subst hrb1
  set n : Int := (rb.buffer.length : Int) with hdefn
  set e : Int := rb.endIndex with hdefe
  set e1 : Int := (e + 1) % n with hdefe1
  have he1nn : 0 ≤ e1 := Int.emod_nonneg _ (by omega)
  have he1lt : e1 < n := Int.emod_lt_of_pos _ hnpos
  have hlen1 : ((rb.buffer.set e1.toNat x).length : Int) = n := by
    rw [List.length_set]
  rw [RingBuffer.get_of_inbounds _ (n - 1) (by omega) (by rw [hlen1]; omega)]
  simp only [hlen1, ← hdefe1]
  have key : ((e1 + 1) % n + (n - 1)) % n = e1 := by
    rw [emod_add_right_emod]
    have h2 : e1 + 1 + (n - 1) = e1 + n * 1 := by ring
    rw [h2, Int.add_mul_emod_self_left]
    exact Int.emod_eq_of_lt he1nn he1lt
  rw [key]
  have hlt : e1.toNat < rb.buffer.length := by
    omega
  simp [List.getElem?_set_self', List.getElem?_eq_getElem hlt]

theorem getD_replicate_default (n : Nat) (d : α) (i : Nat) :
    (List.replicate n d).getD i d = d := by
  rcases lt_or_le i n with h | h
  · simp [List.getD_eq_getElem?_getD, List.getElem?_replicate, h]
  · simp [List.getD_eq_getElem?_getD, List.getElem?_eq_none, h]

theorem RingBuffer.new_buffer (C : Nat) (d : α) :
    (RingBuffer.new (C : Int) d).buffer = List.replicate C d := by
  simp [RingBuffer.new]

theorem RingBuffer.new_endIndex (C : Nat) (d : α) :
    (RingBuffer.new (C : Int) d).endIndex = (C : Int) - 1 := by
  simp [RingBuffer.new]

theorem RingBuffer.new_get (C : Nat) (d : α) (i : Nat) (hi : i < C) :
    (RingBuffer.new (C : Int) d).get (i : Int) = .ok d := by
  rw [RingBuffer.get_of_inbounds _ (i : Int) (by omega)
        (by rw [RingBuffer.new_buffer]; simp; omega)]
  rw [RingBuffer.new_buffer, RingBuffer.new_endIndex]
  simp only [List.length_replicate]
  have h1 : ((C : Int) - 1 + 1) % (C : Int) = 0 := by
    rw [show (C : Int) - 1 + 1 = (C : Int) by ring, Int.emod_self]
  have h2 : ((0 : Int) + (i : Int)) % (C : Int) = (i : Int) := by
    rw [zero_add]
    exact Int.emod_eq_of_lt (by omega) (by omega)
  rw [h1, h2]
  simp [List.getElem?_replicate, hi]

theorem RingBuffer.addAll_append (rb : RingBuffer α) (xs ys : List α) :
    rb.addAll (xs ++ ys) = (rb.addAll xs).bind (fun r => r.addAll ys) := by
  induction xs generalizing rb with
  | nil => simp [RingBuffer.addAll, Except.bind]
  | cons x xs ih =>
    simp only [List.cons_append, RingBuffer.addAll]
    cases h : rb.add x with
    | error e => simp [Except.bind]
    | ok rb1 => simp [Except.bind, ih]

/-- Main characterization: running a sequence of `add` calls on a freshly
constructed buffer of capacity `C >= 1` succeeds, keeps the storage length
at `C`, moves the cursor to `(C - 1 + number of adds) % C`, and leaves the
logical content equal to the last `C` elements of the stream
`placeholder^C ++ inserted items`. -/
theorem RingBuffer.addAll_new_spec (C : Nat) (hC : 0 < C) (d : α) (xs : List α) :
    ∃ rb : RingBuffer α,
      (RingBuffer.new (C : Int) d).addAll xs = .ok rb ∧
      rb.buffer.length = C ∧
      rb.endIndex = ((C : Int) - 1 + xs.length) % (C : Int) ∧
      ∀ i : Nat, i < C →
        rb.get (i : Int) = .ok ((List.replicate C d ++ xs).getD (xs.length + i) d) := by
  induction xs using List.reverseRecOn with
  | nil =>
      refine ⟨RingBuffer.new (C : Int) d, rfl, by simp [RingBuffer.new], ?_, ?_⟩
      · rw [RingBuffer.new_endIndex]
        simp only [List.length_nil, Nat.cast_zero, add_zero]
        exact (Int.emod_eq_of_lt (by omega) (by omega)).symm
      · intro i hi
        rw [RingBuffer.new_get C d i hi]
        simp [getD_replicate_default]
  | append_singleton xs x ih =>
      obtain ⟨rb, hrun, hlen, hend, hget⟩ := ih
      have hne : rb.buffer.length ≠ 0 := by omega
      have hadd : rb.add x =
          .ok { buffer := rb.buffer.set (((rb.endIndex + 1) % (rb.buffer.length : Int)).toNat) x,
                endIndex := (rb.endIndex + 1) % (rb.buffer.length : Int) } :=
        RingBuffer.add_ok rb x hne
      refine ⟨{ buffer := rb.buffer.set (((rb.endIndex + 1) % (rb.buffer.length : Int)).toNat) x,
                endIndex := (rb.endIndex + 1) % (rb.buffer.length : Int) }, ?_, ?_, ?_, ?_⟩
      · rw [RingBuffer.addAll_append, hrun]
        simp [RingBuffer.addAll, Except.bind, hadd]
      · simp [List.length_set, hlen]
      · simp only [List.length_set, hend, hlen, List.length_append,
          List.length_cons, List.length_nil]
        rw [emod_add_right_emod]
        congr 1
        push_cast
        ring
      · intro i hi
        have hlen' : (xs ++ [x]).length = xs.length + 1 := by simp
        rw [hlen', ← List.append_assoc]
        rcases lt_or_eq_of_le (Nat.succ_le_of_lt hi) with hlt | heq
        · have hshift := RingBuffer.add_get_shift rb x _ hadd (i : Int) (by omega)
            (by rw [hlen]; omega)
          rw [hshift, show ((i : Int) + 1) = ((i + 1 : Nat) : Int) by push_cast; ring,
             hget (i + 1) (by omega),
             show xs.length + (i + 1) = xs.length + 1 + i from by omega]
          have hidx : xs.length + 1 + i < (List.replicate C d ++ xs).length := by
            simp
            omega
          rw [List.getD_append (List.replicate C d ++ xs) [x] d (xs.length + 1 + i) hidx]
        · have hlast := RingBuffer.add_get_last rb x _ hadd (by omega)
          have hcast : ((rb.buffer.length : Int) - 1) = (i : Int) := by
            rw [hlen]; omega
          rw [hcast] at hlast
          rw [hlast]
          have hge : (List.replicate C d ++ xs).length ≤ xs.length + 1 + i := by
            simp
            omega
          rw [List.getD_append_right (List.replicate C d ++ xs) [x] d (xs.length + 1 + i) hge]
          have hzero : xs.length + 1 + i - (List.replicate C d ++ xs).length = 0 := by
            simp
            omega
          rw [hzero]
          simp

/-! Embedding of the clip-materializing logic of `Clipper._save_clip`
(`src/lib/clip.py`). -/

/-- Python's built-in `round` on the exact (rational) value of its argument:
round half to even. -/
def pyRound (q : ℚ) : Int :=
  let f : Int := Int.floor q
  let r : ℚ := q - (f : ℚ)
  if r < 1 / 2 then f
  else if 1 / 2 < r then f + 1
  else if f % 2 = 0 then f else f + 1

/-- Python's `range(start, stop)` as a list of integers. -/
def pyRange (start stop : Int) : List Int :=
  (List.range (stop - start).toNat).map (fun (k : Nat) => start + (k : Int))

/-- Running a fallible function over a list, propagating the first raised
exception (models a Python `for` loop whose body may raise). -/
def mapExcept (f : β → Except String α) : List β → Except String (List α)
  | [] => .ok []
  | b :: bs => (f b).bind (fun x => (mapExcept f bs).bind (fun xs => .ok (x :: xs)))

/-- Embedding of `self._ms_per_frame = (1 / estimated_fps) * 1000` from
`Clipper.__init__`. -/
def Clipper.msPerFrame (estimated_fps : ℚ) : ℚ :=
  (1 / estimated_fps) * 1000

/-- Embedding of the frame selection and writing in `Clipper._save_clip`:
`num_frames = min(round(length_ms / self._ms_per_frame), len(self._frame_buffer))`,
`start_frame = len(self._frame_buffer) - num_frames`, then
`for i in range(start_frame, len(self._frame_buffer)): out.write(self._frame_buffer.get(i))`.
The result is the ordered list of frames written to the `VideoWriter`
(the writer construction and `release` are effect-free for the frames
selected and are elided). -/
def Clipper.saveClip (frameBuffer : RingBuffer α) (estimated_fps : ℚ)
    (length_ms : ℚ) : Except String (List α) :=
  let num_frames : Int :=
    min (pyRound (length_ms / Clipper.msPerFrame estimated_fps)) (frameBuffer.length : Int)
  let start_frame : Int := (frameBuffer.length : Int) - num_frames
  mapExcept frameBuffer.get (pyRange start_frame (frameBuffer.length : Int))

example : pyRound (5 / 2) = 2 := by norm_num [pyRound]
example : pyRound (7 / 2) = 4 := by norm_num [pyRound]
example : pyRound (-5 / 2) = -2 := by norm_num [pyRound]
example : pyRound (1 / 3) = 0 := by norm_num [pyRound]
example : pyRound (2 / 3) = 1 := by norm_num [pyRound]
example : pyRange 2 5 = [2, 3, 4] := by decide
example : pyRange 3 3 = [] := by decide
example : pyRange 5 3 = [] := by decide

theorem pyRange_length (a b : Int) : (pyRange a b).length = (b - a).toNat := by
  rw [pyRange, List.length_map, List.length_range]

theorem pyRange_get (a b : Int) (j : Nat) (hj : j < (pyRange a b).length) :
    (pyRange a b).get ⟨j, hj⟩ = a + (j : Int) := by
  simp only [pyRange, List.get_eq_getElem, List.getElem_map, List.getElem_range]

theorem pyRange_mem (a b i : Int) (h : i ∈ pyRange a b) : a ≤ i ∧ i < b := by
  simp only [pyRange, List.mem_map, List.mem_range] at h
  obtain ⟨k, hk, rfl⟩ := h
  omega

theorem mapExcept_ok_of_forall (f : β → Except String α) (l : List β)
    (h : ∀ b ∈ l, ∃ x, f b = .ok x) :
    ∃ xs, mapExcept f l = .ok xs ∧ xs.length = l.length ∧
      ∀ (j : Nat) (hj : j < l.length) (hj' : j < xs.length),
        f (l.get ⟨j, hj⟩) = .ok (xs.get ⟨j, hj'⟩) := by
  induction l with
  | nil => exact ⟨[], rfl, rfl, fun j hj _ => absurd hj (Nat.not_lt_zero j)⟩
  | cons b bs ih =>
    obtain ⟨x, hx⟩ := h b (List.mem_cons_self b bs)
    obtain ⟨xs, hxs, hxslen, hxsget⟩ := ih (fun c hc => h c (List.mem_cons_of_mem b hc))
    refine ⟨x :: xs, ?_, by simp [hxslen], ?_⟩
    · simp [mapExcept, hx, hxs, Except.bind]
    · intro j hj hj'
      cases j with
      | zero => simpa using hx
      | succ j =>
        simpa using hxsget j (by simpa using hj) (by simpa using hj')

theorem RingBuffer.get_ok_of_inbounds (rb : RingBuffer α) (i : Int)
    (h0 : 0 ≤ i) (h1 : i < (rb.buffer.length : Int)) :
    ∃ x, rb.get i = .ok x := by
  rw [RingBuffer.get_of_inbounds rb i h0 h1]
  have hnpos : (0 : Int) < (rb.buffer.length : Int) := by omega
  have hk : (((rb.endIndex + 1) % (rb.buffer.length : Int) + i) %
      (rb.buffer.length : Int)).toNat < rb.buffer.length := by
    have := Int.emod_lt_of_pos ((rb.endIndex + 1) % (rb.buffer.length : Int) + i) hnpos
    have := Int.emod_nonneg ((rb.endIndex + 1) % (rb.buffer.length : Int) + i)
      (by omega : (rb.buffer.length : Int) ≠ 0)
    omega
  rw [List.getElem?_eq_getElem hk]
  exact ⟨_, rfl⟩

/-! Embedding of the `Clipper` lifecycle operations from `src/lib/clip.py`.

The mutable state visible to `clip`, `stop` and `is_active` is:
`self._thread` (set to a `Thread` object at the end of `__init__` and never
reset anywhere in the class), `self._msg_queue` (a FIFO of `_ClipMessage` /
`_StopMessage` values), and the side effects `self._thread.join()` and
`self._video_capture.release()` performed by `stop`, counted here so that
repeated `stop` calls are observable. -/

/-- Messages placed on the Command Channel: `_ClipMessage(length_ms, file_name)`
(kind `"clip"`) and `_StopMessage` (kind `"stop"`). -/
inductive ClipperMsg
  | clipMessage (length_ms : Int) (file_name : String)
  | stopMessage
  deriving Repr, DecidableEq

/-- The `Clipper` state visible to `clip` / `stop` / `is_active`.
`thread` models `self._thread` (`none` is Python `None`). -/
structure ClipperState where
  thread : Option Unit
  msgQueue : List ClipperMsg
  joinCalls : Nat
  releaseCalls : Nat
  deriving Repr, DecidableEq

/-- The state right after `Clipper.__init__` returns: the worker thread `t`
has been created and stored (`self._thread = t`), the queue is empty and no
join/release has happened. -/
def ClipperState.init : ClipperState :=
  { thread := some (), msgQueue := [], joinCalls := 0, releaseCalls := 0 }

/-- Embedding of `Clipper.is_active(self)`: `return self._thread is not None`. -/
def ClipperState.is_active (s : ClipperState) : Bool :=
  s.thread.isSome

/-- Embedding of `Clipper.clip(self, length_ms, file_name)`: raises
`Exception("Clipper is not active")` when `is_active()` is false, otherwise
puts a `_ClipMessage(length_ms, file_name)` on `self._msg_queue`. -/
def ClipperState.clip (s : ClipperState) (length_ms : Int) (file_name : String) :
    Except String ClipperState :=
  if !s.is_active then .error "Clipper is not active"
  else .ok { s with msgQueue := s.msgQueue ++ [ClipperMsg.clipMessage length_ms file_name] }

/-- Embedding of `Clipper.stop(self)`: returns immediately when `is_active()`
is false; otherwise puts a `_StopMessage` on the queue, joins the worker
thread and releases the video capture handle.  Note that the source never
assigns `self._thread = None`, so `thread` is left unchanged. -/
def ClipperState.stop (s : ClipperState) : ClipperState :=
  if !s.is_active then s
  else { s with msgQueue := s.msgQueue ++ [ClipperMsg.stopMessage],
                joinCalls := s.joinCalls + 1,
                releaseCalls := s.releaseCalls + 1 }

example : ClipperState.init.is_active = true := by decide
example : ClipperState.init.stop.is_active = true := by decide
example : ClipperState.init.stop.msgQueue = [ClipperMsg.stopMessage] := by decide

/-! Embedding of the Capture Loop (`Clipper._start`) control flow.

Each iteration of the `while True` loop reads a frame, and on success adds
it to the frame buffer and polls the message queue inside
`try ... except Empty`.  The per-iteration environment (whether the read
succeeded, what message the non-blocking `get` returned, and whether the
cv2 encode inside `_save_clip` raises) is an input; the outcome records
whether the iteration fell through to the next one (`continue`), left the
loop via `break`, or let an exception propagate out of the loop.  The
frame-buffer mutation does not influence the control flow (the buffer is
created with the default size `240*60 >= 1`, so `add` cannot raise) and is
not tracked. -/

/-- A command as classified by `_start`: `msg.kind` is `"stop"`, `"clip"`,
or anything else (`raise Exception("Unknown message type")`). -/
inductive CaptureCmd
  | stopCmd
  | clipCmd (length_ms : Int) (file_name : String)
  | unknownCmd
  deriving Repr, DecidableEq

/-- The environment of one iteration of the Capture Loop.
`readResult = none` models `ret` being false in
`ret, frame = self._video_capture.read()`; `cmd = none` models
`self._msg_queue.get(False)` raising `queue.Empty`; `encodeOk` records
whether the cv2 writer calls inside `_save_clip` complete without raising. -/
structure CaptureIter (Frame : Type) where
  readResult : Option Frame
  cmd : Option CaptureCmd
  encodeOk : Bool
  deriving Repr, DecidableEq

/-- How an iteration of the Capture Loop ends. -/
inductive LoopOutcome
  | running
  | stopped
  | crashed
  deriving Repr, DecidableEq

/-- One iteration of the `while True` body of `Clipper._start`. -/
def captureStep (it : CaptureIter Frame) : LoopOutcome :=
  match it.readResult with
  | none => .running
  | some _ =>
    match it.cmd with
    | none => .running
    | some CaptureCmd.stopCmd => .stopped
    | some (CaptureCmd.clipCmd _ _) =>
        if it.encodeOk then .running else .crashed
    | some CaptureCmd.unknownCmd => .crashed

/-- Running the Capture Loop over a finite prefix of iteration
environments: the loop keeps going while each step ends in `running`. -/
def captureRun : List (CaptureIter Frame) → LoopOutcome
  | [] => .running
  | it :: its =>
    match captureStep it with
    | .running => captureRun its
    | o => o

example :
    captureStep ({ readResult := none, cmd := some CaptureCmd.stopCmd,
                   encodeOk := true } : CaptureIter Nat) = .running := by decide
example :
    captureStep ({ readResult := some 0, cmd := some CaptureCmd.stopCmd,
                   encodeOk := true } : CaptureIter Nat) = .stopped := by decide
example :
    captureStep ({ readResult := some 0, cmd := some (CaptureCmd.clipCmd 1000 "f.mp4"),
                   encodeOk := false } : CaptureIter Nat) = .crashed := by decide

theorem getD_eq_get_of_lt (l : List α) (d : α) (j : Nat) (h : j < l.length) :
    l.getD j d = l.get ⟨j, h⟩ := by
  simp [List.getD_eq_getElem?_getD, List.getElem?_eq_getElem h]

/-! Claim theorems. -/

/-- C4 counterexample: the claim says `new(capacity, placeholder)` fails
whenever `capacity < 1`, but `RingBuffer.__init__` performs no validation
and cannot raise: constructing with capacity `0` (or `-3`) succeeds and
returns a buffer with empty storage and cursor `-1`. -/
theorem RingBuffer.new_zero_capacity_succeeds :
    RingBuffer.new 0 (0 : Nat) = { buffer := [], endIndex := -1 } ∧
    RingBuffer.new (-3) (0 : Nat) = { buffer := [], endIndex := -1 } :=
  ⟨rfl, rfl⟩

/-- C4 (amended): `new(capacity, placeholder)` never fails; for
`capacity >= 1` it allocates exactly `capacity` slots all set to
`placeholder`, and for `capacity < 1` it succeeds with zero slots. -/
theorem RingBuffer.new_allocation (size : Int) (d : α) :
    (1 ≤ size →
      ((RingBuffer.new size d).buffer.length : Int) = size ∧
      ∀ y ∈ (RingBuffer.new size d).buffer, y = d) ∧
    (size < 1 → (RingBuffer.new size d).buffer = []) := by
  refine ⟨fun h => ⟨?_, ?_⟩, fun h => ?_⟩
  · simp only [RingBuffer.new, List.length_replicate]
    omega
  · intro y hy
    simp only [RingBuffer.new] at hy
    exact List.eq_of_mem_replicate hy
  · simp only [RingBuffer.new, List.replicate_eq_nil_iff]
    omega

/-- C4 witness: at capacity `3` the buffer has three slots, all holding the
placeholder; at capacity `0` the storage is empty. -/
theorem RingBuffer.new_allocation_witness :
    (((RingBuffer.new (3 : Int) (0 : Nat)).buffer.length : Int) = 3 ∧
      ∀ y ∈ (RingBuffer.new (3 : Int) (0 : Nat)).buffer, y = 0) ∧
    (RingBuffer.new (0 : Int) (0 : Nat)).buffer = [] :=
  ⟨(RingBuffer.new_allocation 3 0).1 (by decide),
   (RingBuffer.new_allocation 0 0).2 (by decide)⟩

/-- C10: constructing a `RingBuffer` with capacity `0` succeeds with empty
storage and cursor `-1`, but the first `add` then raises the Python
`ZeroDivisionError` from `% len(self.buffer)`; whenever the storage is
non-empty (in particular for every buffer constructed with capacity
`>= 1`), `add` always succeeds. -/
theorem RingBuffer.zero_capacity_add_raises :
    (RingBuffer.new 0 (0 : Nat)).buffer = [] ∧
    (RingBuffer.new 0 (0 : Nat)).endIndex = -1 ∧
    (∀ x : Nat, (RingBuffer.new 0 (0 : Nat)).add x =
      .error "integer division or modulo by zero") ∧
    (∀ (β : Type) (rb : RingBuffer β) (x : β), 0 < rb.buffer.length →
      ∃ rb', rb.add x = .ok rb') := by
  refine ⟨rfl, rfl, fun x => rfl, fun β rb x h => ⟨_, RingBuffer.add_ok rb x (by omega)⟩⟩

/-- C10 witness: a capacity-1 buffer accepts an `add`. -/
theorem RingBuffer.zero_capacity_add_raises_witness :
    ∃ rb', (RingBuffer.new 1 (0 : Nat)).add 5 = .ok rb' :=
  RingBuffer.zero_capacity_add_raises.2.2.2 Nat (RingBuffer.new 1 0) 5 (by decide)

/-- C8: `get(index)` raises IndexError exactly when `index` is outside
`[0, capacity)` (stated for an arbitrary buffer state, hence independent of
the preceding insertion history); for every index in range it returns a
value. -/
theorem RingBuffer.get_range_check (rb : RingBuffer α) (index : Int) :
    ((index < 0 ∨ (rb.buffer.length : Int) ≤ index) →
      rb.get index = .error "Out of range") ∧
    (0 ≤ index → index < (rb.buffer.length : Int) →
      ∃ x, rb.get index = .ok x) := by
  constructor
  · intro h
    simp only [RingBuffer.get, if_pos h]
  · intro h0 h1
    exact RingBuffer.get_ok_of_inbounds rb index h0 h1

/-- C8 witness: on a capacity-2 buffer, `get 5` and `get (-1)` raise and
`get 0` succeeds. -/
theorem RingBuffer.get_range_check_witness :
    (RingBuffer.new 2 (0 : Nat)).get 5 = .error "Out of range" ∧
    (RingBuffer.new 2 (0 : Nat)).get (-1) = .error "Out of range" ∧
    ∃ x, (RingBuffer.new 2 (0 : Nat)).get 0 = .ok x :=
  ⟨(RingBuffer.get_range_check (RingBuffer.new 2 0) 5).1 (by right; decide),
   (RingBuffer.get_range_check (RingBuffer.new 2 0) (-1)).1 (by left; decide),
   (RingBuffer.get_range_check (RingBuffer.new 2 0) 0).2 (by decide) (by decide)⟩

/-- C9: for capacity `C >= 1`, the cursor starts at `C - 1`; every
successful `add` keeps the storage length at `C`, moves the cursor by
exactly one modulo `C`, and keeps it inside `[0, C)`; consequently, after
any sequence of `add` calls on a fresh buffer the storage length is still
`C` and the cursor is in `[0, C)` (`get` does not mutate the state, so
interleaved `get` calls cannot disturb this). -/
theorem RingBuffer.state_invariant (C : Nat) (hC : 0 < C) (d : α) :
    (RingBuffer.new (C : Int) d).buffer.length = C ∧
    (RingBuffer.new (C : Int) d).endIndex = (C : Int) - 1 ∧
    (∀ (rb rb' : RingBuffer α) (x : α), rb.buffer.length = C →
      rb.add x = .ok rb' →
      rb'.buffer.length = C ∧
      rb'.endIndex = (rb.endIndex + 1) % (C : Int) ∧
      0 ≤ rb'.endIndex ∧ rb'.endIndex < (C : Int)) ∧
    (∀ xs : List α, ∃ rb', (RingBuffer.new (C : Int) d).addAll xs = .ok rb' ∧
      rb'.buffer.length = C ∧ 0 ≤ rb'.endIndex ∧ rb'.endIndex < (C : Int)) := by
  refine ⟨by simp [RingBuffer.new], RingBuffer.new_endIndex C d, ?_, ?_⟩
  · intro rb rb' x hlen hadd
    rw [RingBuffer.add_ok rb x (by omega)] at hadd
    have hrb' : rb' = { buffer := rb.buffer.set (((rb.endIndex + 1) % (rb.buffer.length : Int)).toNat) x,
                        endIndex := (rb.endIndex + 1) % (rb.buffer.length : Int) } := by
      cases hadd
      rfl
    subst hrb'
    have hCpos : (0 : Int) < (C : Int) := by omega
    refine ⟨by simp [List.length_set, hlen], by rw [hlen], ?_, ?_⟩
    · rw [hlen]
      exact Int.emod_nonneg _ (by omega)
    · rw [hlen]
      exact Int.emod_lt_of_pos _ hCpos
  · intro xs
    obtain ⟨rb', hrun, hlen, hend, -⟩ := RingBuffer.addAll_new_spec C hC d xs
    refine ⟨rb', hrun, hlen, ?_, ?_⟩
    · rw [hend]
      exact Int.emod_nonneg _ (by omega)
    · rw [hend]
      exact Int.emod_lt_of_pos _ (by omega)

/-- C9 witness: the invariant at capacity `2`. -/
theorem RingBuffer.state_invariant_witness :
    0 < 2 ∧
    ((RingBuffer.new ((2 : Nat) : Int) (0 : Nat)).buffer.length = 2 ∧
     (RingBuffer.new ((2 : Nat) : Int) (0 : Nat)).endIndex = ((2 : Nat) : Int) - 1 ∧
     (∀ (rb rb' : RingBuffer Nat) (x : Nat), rb.buffer.length = 2 →
       rb.add x = .ok rb' →
       rb'.buffer.length = 2 ∧
       rb'.endIndex = (rb.endIndex + 1) % ((2 : Nat) : Int) ∧
       0 ≤ rb'.endIndex ∧ rb'.endIndex < ((2 : Nat) : Int)) ∧
     (∀ xs : List Nat, ∃ rb', (RingBuffer.new ((2 : Nat) : Int) (0 : Nat)).addAll xs = .ok rb' ∧
       rb'.buffer.length = 2 ∧ 0 ≤ rb'.endIndex ∧ rb'.endIndex < ((2 : Nat) : Int))) :=
  ⟨by decide, RingBuffer.state_invariant 2 (by decide) 0⟩

/-- C6: after more than `C` inserts into a fresh buffer of capacity
`C >= 1`, `at(C-1)` returns the most recently inserted item, and `at(0)`
returns the oldest retained item: the one inserted `C` insert-calls back
counting the most recent call as the first (the `C`-th most recent
insert). -/
theorem RingBuffer.window_after_overflow (C : Nat) (hC : 0 < C) (d : α)
    (xs : List α) (hlen : C < xs.length) :
    ∃ rb, (RingBuffer.new (C : Int) d).addAll xs = .ok rb ∧
      rb.get ((C : Int) - 1) = .ok (xs.get ⟨xs.length - 1, by omega⟩) ∧
      rb.get 0 = .ok (xs.get ⟨xs.length - C, by omega⟩) := by
  obtain ⟨rb, hrun, hblen, hend, hget⟩ := RingBuffer.addAll_new_spec C hC d xs
  refine ⟨rb, hrun, ?_, ?_⟩
  · have h := hget (C - 1) (by omega)
    rw [show (((C - 1 : Nat)) : Int) = (C : Int) - 1 from by omega] at h
    rw [h]
    congr 1
    rw [List.getD_append_right _ _ _ _ (by simp; omega)]
    rw [getD_eq_get_of_lt xs d _ (by simp; omega)]
    congr 1
    simp
    omega
  · have h := hget 0 hC
    rw [show (((0 : Nat)) : Int) = (0 : Int) from rfl] at h
    rw [h]
    congr 1
    rw [List.getD_append_right _ _ _ _ (by simp; omega)]
    rw [getD_eq_get_of_lt xs d _ (by simp; omega)]
    congr 1
    simp

/-- C6 witness: capacity `1`, inserts `[10, 20]`: `at(0)` is `20`, the most
recent item, which is also the one `1` call back. -/
theorem RingBuffer.window_after_overflow_witness :
    0 < 1 ∧ 1 < 2 ∧
    ∃ rb, (RingBuffer.new ((1 : Nat) : Int) (0 : Nat)).addAll [10, 20] = .ok rb ∧
      rb.get (((1 : Nat) : Int) - 1) = .ok ([10, 20].get ⟨1, by decide⟩) ∧
      rb.get 0 = .ok ([10, 20].get ⟨1, by decide⟩) :=
  ⟨by decide, by decide,
   RingBuffer.window_after_overflow 1 (by decide) 0 [10, 20] (by decide)⟩

/-- C7: inserting exactly `C` items into a fresh buffer of capacity
`C >= 1` yields `at(i) = x_i` for every `i < C`; in particular, a
capacity-4 buffer pre-filled with placeholder `0` gives
`at = [0, A, B, C]` after inserting `A, B, C = 1, 2, 3`, and
`at = [A, B, C, D] = [1, 2, 3, 4]` after additionally inserting `D = 4`. -/
theorem RingBuffer.roundtrip (C : Nat) (hC : 0 < C) (d : α)
    (xs : List α) (hlen : xs.length = C) :
    (∃ rb, (RingBuffer.new (C : Int) d).addAll xs = .ok rb ∧
      ∀ (i : Nat) (hi : i < C),
        rb.get (i : Int) = .ok (xs.get ⟨i, by omega⟩)) ∧
    (∃ rb3, (RingBuffer.new 4 (0 : Nat)).addAll [1, 2, 3] = .ok rb3 ∧
      rb3.get 0 = .ok 0 ∧ rb3.get 1 = .ok 1 ∧
      rb3.get 2 = .ok 2 ∧ rb3.get 3 = .ok 3 ∧
      ∃ rb4, rb3.add 4 = .ok rb4 ∧
        rb4.get 0 = .ok 1 ∧ rb4.get 1 = .ok 2 ∧
        rb4.get 2 = .ok 3 ∧ rb4.get 3 = .ok 4) := by
  constructor
  · obtain ⟨rb, hrun, hblen, hend, hget⟩ := RingBuffer.addAll_new_spec C hC d xs
    refine ⟨rb, hrun, ?_⟩
    intro i hi
    have h := hget i hi
    rw [h]
    congr 1
    rw [List.getD_append_right _ _ _ _ (by simp; omega)]
    rw [getD_eq_get_of_lt xs d _ (by simp; omega)]
    congr 1
    simp
    omega
  · exact ⟨{ buffer := [1, 2, 3, 0], endIndex := 2 }, rfl, rfl, rfl, rfl, rfl,
      { buffer := [1, 2, 3, 4], endIndex := 3 }, rfl, rfl, rfl, rfl, rfl⟩

/-- C7 witness: capacity `2`, inserts `[5, 6]`: `at(0) = 5`, `at(1) = 6`. -/
theorem RingBuffer.roundtrip_witness :
    0 < 2 ∧ [5, 6].length = 2 ∧
    (∃ rb, (RingBuffer.new ((2 : Nat) : Int) (0 : Nat)).addAll [5, 6] = .ok rb ∧
      ∀ (i : Nat) (hi : i < 2),
        rb.get (i : Int) = .ok ([5, 6].get ⟨i, by simpa using hi⟩)) :=
  ⟨by decide, by decide, (RingBuffer.roundtrip 2 (by decide) 0 [5, 6] (by decide)).1⟩

theorem RingBuffer.length_eq (rb : RingBuffer α) : rb.length = rb.buffer.length := rfl

/-- C5: with `estimated_fps > 0` and a non-negative rounded frame count,
`_save_clip` writes exactly
`num_frames = min(round(duration_ms / (1000 / estimated_fps)), C)` frames
(`C` the buffer capacity) — a request whose implied frame count reaches `C`
yields exactly `C` frames instead of failing — and the frames written are
those at logical indices `C - num_frames .. C - 1`, in increasing index
order.  (The code computes `ms_per_frame = (1 / estimated_fps) * 1000`,
which over the rationals equals the claim's `1000 / estimated_fps`.) -/
theorem Clipper.save_clip_selection (frameBuffer : RingBuffer α)
    (estimated_fps length_ms : ℚ) (hfps : 0 < estimated_fps)
    (hnn : 0 ≤ pyRound (length_ms / (1000 / estimated_fps))) :
    ∃ frames : List α,
      Clipper.saveClip frameBuffer estimated_fps length_ms = .ok frames ∧
      (frames.length : Int) =
        min (pyRound (length_ms / (1000 / estimated_fps))) (frameBuffer.length : Int) ∧
      ((frameBuffer.length : Int) ≤ pyRound (length_ms / (1000 / estimated_fps)) →
        frames.length = frameBuffer.length) ∧
      ∀ (j : Nat) (hj : j < frames.length),
        frameBuffer.get
            ((frameBuffer.length : Int) - (frames.length : Int) + (j : Int)) =
          .ok (frames.get ⟨j, hj⟩) := by
  have harg : length_ms / Clipper.msPerFrame estimated_fps
      = length_ms / (1000 / estimated_fps) := by
    rw [Clipper.msPerFrame]
    congr 1
    ring
  have hNb : frameBuffer.length = frameBuffer.buffer.length := rfl
  have hminle : min (pyRound (length_ms / (1000 / estimated_fps)))
      ((frameBuffer.length : Nat) : Int) ≤ ((frameBuffer.length : Nat) : Int) :=
    min_le_right _ _
  have hmin_nonneg : 0 ≤ min (pyRound (length_ms / (1000 / estimated_fps)))
      ((frameBuffer.length : Nat) : Int) :=
    le_min hnn (by omega)
  obtain ⟨frames, hmap, hflen, hfget⟩ :=
    mapExcept_ok_of_forall frameBuffer.get
      (pyRange
        ((frameBuffer.length : Int) -
          min (pyRound (length_ms / (1000 / estimated_fps))) (frameBuffer.length : Int))
        (frameBuffer.length : Int))
      (fun i hi => by
        obtain ⟨h1, h2⟩ := pyRange_mem _ _ i hi
        exact RingBuffer.get_ok_of_inbounds frameBuffer i (by omega) (by rw [← hNb]; omega))
  have hsave : Clipper.saveClip frameBuffer estimated_fps length_ms =
      mapExcept frameBuffer.get
        (pyRange
          ((frameBuffer.length : Int) -
            min (pyRound (length_ms / (1000 / estimated_fps))) (frameBuffer.length : Int))
          (frameBuffer.length : Int)) := by
    simp only [Clipper.saveClip, harg]
  have hlen2 : frames.length =
      (min (pyRound (length_ms / (1000 / estimated_fps)))
        ((frameBuffer.length : Nat) : Int)).toNat := by
    rw [hflen, pyRange_length]
    congr 1
    ring
  have hlenInt : (frames.length : Int) =
      min (pyRound (length_ms / (1000 / estimated_fps))) ((frameBuffer.length : Nat) : Int) := by
    rw [hlen2]
    exact Int.toNat_of_nonneg hmin_nonneg
  refine ⟨frames, by rw [hsave, hmap], hlenInt, ?_, ?_⟩
  · intro h
    have : min (pyRound (length_ms / (1000 / estimated_fps)))
        ((frameBuffer.length : Nat) : Int) = ((frameBuffer.length : Nat) : Int) :=
      min_eq_right h
    rw [hlen2, this, Int.toNat_natCast]
  · intro j hj
    have hj2 : j < (pyRange
        ((frameBuffer.length : Int) -
          min (pyRound (length_ms / (1000 / estimated_fps))) (frameBuffer.length : Int))
        (frameBuffer.length : Int)).length := by
      rw [← hflen]
      exact hj
    have h := hfget j hj2 hj
    rw [pyRange_get] at h
    rw [hlenInt]
    exact h

/-- C5 witness: buffer of capacity 4, `estimated_fps = 30`,
`length_ms = 100`: the rounded frame count is 3. -/
theorem Clipper.save_clip_selection_witness :
    0 < (30 : ℚ) ∧ 0 ≤ pyRound ((100 : ℚ) / (1000 / 30)) ∧
    ∃ frames : List Nat,
      Clipper.saveClip (RingBuffer.new 4 0) 30 100 = .ok frames ∧
      (frames.length : Int) =
        min (pyRound ((100 : ℚ) / (1000 / 30))) ((RingBuffer.new 4 (0 : Nat)).length : Int) ∧
      (((RingBuffer.new 4 (0 : Nat)).length : Int) ≤ pyRound ((100 : ℚ) / (1000 / 30)) →
        frames.length = (RingBuffer.new 4 (0 : Nat)).length) ∧
      ∀ (j : Nat) (hj : j < frames.length),
        (RingBuffer.new 4 (0 : Nat)).get
            (((RingBuffer.new 4 (0 : Nat)).length : Int) - (frames.length : Int) + (j : Int)) =
          .ok (frames.get ⟨j, hj⟩) :=
  ⟨by norm_num, by norm_num [pyRound],
   Clipper.save_clip_selection (RingBuffer.new 4 0) 30 100 (by norm_num)
     (by norm_num [pyRound])⟩

/-- C1 (evaluating the code at the failing input): after `stop()` has
completed, `is_active()` still returns true (the source never resets
`self._thread` to `None`), so a subsequent `clip(2000, "out.mp4")` does not
raise the inactive error — it succeeds and enqueues a `_ClipMessage` onto
the Command Channel behind the `_StopMessage`. -/
theorem ClipperState.clip_after_stop_enqueues :
    ClipperState.init.stop.is_active = true ∧
    ClipperState.init.stop.clip 2000 "out.mp4" =
      .ok { thread := some (),
            msgQueue := [ClipperMsg.stopMessage, ClipperMsg.clipMessage 2000 "out.mp4"],
            joinCalls := 1, releaseCalls := 1 } :=
  ⟨rfl, rfl⟩

/-- C2 (evaluating the code at the failing input): because `stop()` never
resets `self._thread`, a second `stop()` call is not a no-op: it enqueues a
second `_StopMessage`, joins the (already terminated) thread again and
releases the capture handle again, and `is_active()` still returns true
afterwards. -/
theorem ClipperState.stop_twice_not_noop :
    ClipperState.init.stop.stop.msgQueue =
      [ClipperMsg.stopMessage, ClipperMsg.stopMessage] ∧
    ClipperState.init.stop.stop.joinCalls = 2 ∧
    ClipperState.init.stop.stop.releaseCalls = 2 ∧
    ClipperState.init.stop.stop.is_active = true :=
  ⟨rfl, rfl, rfl, rfl⟩

/-- When every iteration fails its frame read, the Capture Loop just keeps
logging and looping. -/
theorem captureRun_running_of_all_read_fail (its : List (CaptureIter Frame))
    (h : ∀ i ∈ its, i.readResult = none) : captureRun its = .running := by
  induction its with
  | nil => rfl
  | cons i is ih =>
    have hi : i.readResult = none := h i (List.mem_cons_self i is)
    simp only [captureRun, captureStep, hi]
    exact ih (fun j hj => h j (List.mem_cons_of_mem i hj))

/-- C3 counterexample: a clip-encode failure does crash the Capture Loop.
In `_start`, `self._save_clip(...)` runs inside `try ... except Empty`, so
an exception raised by the cv2 writer propagates out of the loop: an
iteration with a successful read, a pending `_ClipMessage` and a failing
encode ends the loop, contradicting the claim that only `StopRequest` or
an unknown command ends it. -/
theorem captureStep_crashes_on_encode_failure :
    captureStep ({ readResult := some 0, cmd := some (CaptureCmd.clipCmd 1000 "clip.mp4"),
                   encodeOk := false } : CaptureIter Nat) = .crashed ∧
    captureRun [({ readResult := some 0, cmd := some (CaptureCmd.clipCmd 1000 "clip.mp4"),
                   encodeOk := false } : CaptureIter Nat)] = .crashed :=
  ⟨rfl, rfl⟩

/-- C3 (amended): a frame-read failure never ends the Capture Loop (a whole
run of read-failing iterations leaves it running); the loop leaves via
`break` exactly on a processed `StopRequest`, and an uncaught exception
ends it exactly on an unknown command or on a clip request whose encode
fails.  A frame-read failure or a successfully encoded clip request always
continues to the next iteration. -/
theorem captureStep_exit_characterization (it : CaptureIter Frame) :
    (it.readResult = none → captureStep it = .running) ∧
    (captureStep it = .stopped ↔
      it.readResult ≠ none ∧ it.cmd = some CaptureCmd.stopCmd) ∧
    (captureStep it = .crashed ↔
      it.readResult ≠ none ∧
        (it.cmd = some CaptureCmd.unknownCmd ∨
          ∃ ms file, it.cmd = some (CaptureCmd.clipCmd ms file) ∧ it.encodeOk = false)) ∧
    (∀ its : List (CaptureIter Frame), (∀ i ∈ its, i.readResult = none) →
      captureRun its = .running) := by
  obtain ⟨r, c, e⟩ := it
  refine ⟨?_, ?_, ?_, fun its h => captureRun_running_of_all_read_fail its h⟩
  · intro h
    simp only at h
    simp [captureStep, h]
  · cases r with
    | none => simp [captureStep]
    | some f =>
      cases c with
      | none => simp [captureStep]
      | some cmd =>
        cases cmd with
        | stopCmd => simp [captureStep]
        | clipCmd ms file =>
          cases e <;> simp [captureStep]
        | unknownCmd => simp [captureStep]
  · cases r with
    | none => simp [captureStep]
    | some f =>
      cases c with
      | none => simp [captureStep]
      | some cmd =>
        cases cmd with
        | stopCmd => simp [captureStep]
        | clipCmd ms file =>
          cases e <;> simp [captureStep]
        | unknownCmd => simp [captureStep]

/-- C3 witness: a successfully read frame with a pending `StopRequest`
ends the loop via `break`. -/
theorem captureStep_exit_characterization_witness :
    captureStep ({ readResult := some 0, cmd := some CaptureCmd.stopCmd,
                   encodeOk := true } : CaptureIter Nat) = .stopped :=
  ((captureStep_exit_characterization
      ({ readResult := some 0, cmd := some CaptureCmd.stopCmd,
         encodeOk := true } : CaptureIter Nat)).2.1).mpr
    ⟨by simp, rfl⟩
